import Mathlib

/-!
Verification of the IP packet-filter subsystem of `g_svcmds.c` (opentdm).

The store is the global array `ipfilters` together with `numipfilters`,
modelled here as a `List ipfilter_t` (index 0 = array slot 0, the list
length = `numipfilters`).  The C `expire` field is an unsigned 32-bit
value; the permanent sentinel written by `StringToFilter` is `-1`, which
stored into the unsigned field is `4294967295`.  Current time is the
`(unsigned) time(NULL)` value, hence always `< 2^32`.

`netadr_t`, `net_parseIPAddressMask` and `net_contains` are declared
outside the provided source; they are modelled from the spec (section
4.1 AddressMask) and marked as such in their doc comments.
-/

/-- Modelled from the spec: the address family of an `AddressMask`
(v4/v6); `bad` stands for the all-zero `netadr_t` produced by `memset 0`
when no parse result is available. -/
inductive AddrFamily
  | bad
  | v4
  | v6
deriving DecidableEq

/-- Modelled from the spec: `AddressMask` = address family, raw address
bytes (16 bytes, v4 uses the first 4 and leaves the rest zero, matching
the `memset`-zeroed C struct), and prefix length in bits (`mask_bits`,
the field name read off the source). -/
structure netadr_t where
  family : AddrFamily
  ip : List Nat
  mask_bits : Nat
deriving DecidableEq

/-- The all-zero `netadr_t`, i.e. the struct after `memset(&f->addr, 0, ...)`. -/
def netadrZero : netadr_t :=
  { family := AddrFamily.bad, ip := List.replicate 16 0, mask_bits := 0 }

/-- A filter entry: address mask plus expiry (unsigned 32-bit value). -/
structure ipfilter_t where
  addr : netadr_t
  expire : Nat
deriving DecidableEq

/-- The C `(unsigned)(-1)`: value of the permanent sentinel `f->expire = -1`. -/
def UINT_MAX : Nat := 4294967295

/-- A zeroed `ipfilter_t` (the value `memset(last, 0, ...)` leaves behind). -/
def ipfilterZero : ipfilter_t := { addr := netadrZero, expire := 0 }

/-- Capacity of the `ipfilters` array.  Modelled from the spec: a fixed
compile-time maximum entry count (the header with the constant is not
part of the provided source; the classic value 1024 is used — no claim
depends on the numeric value). -/
def MAX_IPFILTERS : Nat := 1024

/-! ### Address parsing, modelled from the spec (section 4.1) -/

/-- Split a character list on a separator character. -/
def splitOnCharAux (c : Char) : List Char → List Char → List (List Char)
  | [], acc => [acc.reverse]
  | x :: xs, acc =>
    if x = c then acc.reverse :: splitOnCharAux c xs []
    else splitOnCharAux c xs (x :: acc)

/-- Split a character list on a separator character (like `strtok` on one char). -/
def splitOnChar (c : Char) (l : List Char) : List (List Char) :=
  splitOnCharAux c l []

/-- Decimal digit value of a character, if it is a digit. -/
def decDigit? (c : Char) : Option Nat :=
  if c.isDigit then some (c.toNat - 48) else none

/-- Hexadecimal digit value of a character, if it is a hex digit. -/
def hexDigit? (c : Char) : Option Nat :=
  if c.isDigit then some (c.toNat - 48)
  else if 97 ≤ c.toNat ∧ c.toNat ≤ 102 then some (c.toNat - 87)
  else if 65 ≤ c.toNat ∧ c.toNat ≤ 70 then some (c.toNat - 55)
  else none

/-- Value of a nonempty all-decimal-digit character list. -/
def decValueAux : List Char → Nat → Option Nat
  | [], acc => some acc
  | c :: cs, acc =>
    match decDigit? c with
    | some d => decValueAux cs (acc * 10 + d)
    | none => none

/-- Parse a nonempty decimal number. -/
def decValue? (l : List Char) : Option Nat :=
  if l = [] then none else decValueAux l 0

/-- Parse one dotted-quad octet (0..255). -/
def parseOctet (l : List Char) : Option Nat :=
  match decValue? l with
  | some v => if v ≤ 255 then some v else none
  | none => none

/-- Modelled from the spec: parse a dotted-quad IPv4 address into its 4 bytes. -/
def parseIPv4 (l : List Char) : Option (List Nat) :=
  match splitOnChar '.' l with
  | [p, q, r, s] =>
    match parseOctet p, parseOctet q, parseOctet r, parseOctet s with
    | some a, some b, some c, some d => some [a, b, c, d]
    | _, _, _, _ => none
  | _ => none

/-- Value of a 1..4 hex-digit group (a 16-bit word of an IPv6 address). -/
def hexGroupAux : List Char → Nat → Option Nat
  | [], acc => some acc
  | c :: cs, acc =>
    match hexDigit? c with
    | some d => hexGroupAux cs (acc * 16 + d)
    | none => none

/-- Parse a 1..4 hex-digit IPv6 group. -/
def hexGroup? (l : List Char) : Option Nat :=
  if l = [] ∨ 4 < l.length then none else hexGroupAux l 0

/-- Parse a colon-separated list of hex groups. -/
def hexGroups? : List (List Char) → Option (List Nat)
  | [] => some []
  | g :: gs =>
    match hexGroup? g, hexGroups? gs with
    | some w, some ws => some (w :: ws)
    | _, _ => none

/-- Split around the first occurrence of a double colon, if any. -/
def findDoubleColon : List Char → Option (List Char × List Char)
  | [] => none
  | [_] => none
  | a :: b :: rest =>
    if a = ':' ∧ b = ':' then some ([], rest)
    else
      match findDoubleColon (b :: rest) with
      | some (pre, post) => some (a :: pre, post)
      | none => none

/-- Turn 16-bit words into bytes, big-endian within each word. -/
def wordsToBytes : List Nat → List Nat
  | [] => []
  | w :: ws => (w / 256) :: (w % 256) :: wordsToBytes ws

/-- Modelled from the spec: parse an IPv6 address (full form, or with one
double-colon zero-run compression) into its 16 bytes. -/
def parseIPv6 (l : List Char) : Option (List Nat) :=
  match findDoubleColon l with
  | none =>
    match hexGroups? (splitOnChar ':' l) with
    | some ws => if ws.length = 8 then some (wordsToBytes ws) else none
    | none => none
  | some (pre, post) =>
    match findDoubleColon post with
    | some _ => none
    | none =>
      match (if pre = [] then some [] else hexGroups? (splitOnChar ':' pre)),
            (if post = [] then some [] else hexGroups? (splitOnChar ':' post)) with
      | some ws1, some ws2 =>
        if ws1.length + ws2.length ≤ 7 then
          some (wordsToBytes (ws1 ++ List.replicate (8 - ws1.length - ws2.length) 0 ++ ws2))
        else none
      | _, _ => none

/-- Parse a bare address of either family; yields family, the 16 raw
bytes, and the family bit width (32 for v4, 128 for v6). -/
def parseAddrCore (l : List Char) : Option (AddrFamily × List Nat × Nat) :=
  match parseIPv4 l with
  | some bs => some (AddrFamily.v4, bs ++ List.replicate 12 0, 32)
  | none =>
    match parseIPv6 l with
    | some bs => some (AddrFamily.v6, bs, 128)
    | none => none

/-- Modelled from the spec: `Parse(text)` — accept a bare address
(implying the full-width prefix) or an `address/prefixLength` pair, both
families; the prefix length must be a decimal integer within the
family's range.  Returns `none` on any syntactically invalid text. -/
def net_parseIPAddressMask (s : String) : Option netadr_t :=
  match splitOnChar '/' s.data with
  | [addrPart] =>
    match parseAddrCore addrPart with
    | some (fam, bytes, w) => some { family := fam, ip := bytes, mask_bits := w }
    | none => none
  | [addrPart, maskPart] =>
    match parseAddrCore addrPart with
    | some (fam, bytes, w) =>
      match decValue? maskPart with
      | some m => if m ≤ w then some { family := fam, ip := bytes, mask_bits := m } else none
      | none => none
    | none => none
  | _ => none

/-- Do the top `bits` bits of two byte sequences agree? -/
def prefixBitsEq : List Nat → List Nat → Nat → Bool
  | _, _, 0 => true
  | a :: as, b :: bs, n + 1 =>
    if n + 1 < 8 then decide (a / 2 ^ (8 - (n + 1)) = b / 2 ^ (8 - (n + 1)))
    else decide (a = b) && prefixBitsEq as bs (n + 1 - 8)
  | _, _, _ => false

/-- Modelled from the spec: `Contains(self, candidate)` — true iff the
top `mask_bits` bits of `candidate`'s address equal the top `mask_bits`
bits of `self`'s address, within the same family only. -/
def net_contains (self cand : netadr_t) : Bool :=
  decide (self.family = cand.family) && prefixBitsEq self.ip cand.ip self.mask_bits

/-! ### The source operations (embedded from `g_svcmds.c`) -/

/-- `StringToFilter` (g_svcmds.c): zero the address, assign the parse
result, set `expire` to `time(NULL) + seconds` when `seconds` is
nonzero and to `-1` (= `UINT_MAX` in the unsigned field) otherwise.
Note the function returns `true` unconditionally.  `now` stands for
`time(NULL)`; storage into the 32-bit field wraps mod `2^32`. -/
def StringToFilter (s : String) (seconds : Nat) (now : Nat) : Bool × ipfilter_t :=
  let addr :=
    match net_parseIPAddressMask s with
    | some a => a
    | none => netadrZero
  (true,
   { addr := addr,
     expire := if seconds ≠ 0 then (now + seconds) % 4294967296 else UINT_MAX })

/-- `RemoveIP` (g_svcmds.c): overwrite slot `i` with the last slot, zero
the last slot and decrement the count — on the list model: set index `i`
to the last element and drop the last element. -/
def RemoveIP (l : List ipfilter_t) (i : Nat) : List ipfilter_t :=
  (l.set i (l.getD (l.length - 1) ipfilterZero)).dropLast

/-- The sweep test on one entry: `ipfilters[i].expire && ipfilters[i].expire < now`. -/
def banExpired (e : ipfilter_t) (now : Nat) : Bool :=
  decide (e.expire ≠ 0) && decide (e.expire < now)

/-- The loop body of `TDM_CheckBans`: at index `i`, remove the entry and
re-run the same index (the C `RemoveIP(i); i--;` followed by `i++`) when
it is expired, otherwise advance.  The C loop terminates because every
iteration either advances `i` or shrinks the array; `fuel` dominates
that measure and `TDM_CheckBans` always supplies enough of it. -/
def checkBansAux (now : Nat) : Nat → Nat → List ipfilter_t → List ipfilter_t
  | 0, _, l => l
  | fuel + 1, i, l =>
    if h : i < l.length then
      if banExpired (l.get ⟨i, h⟩) now then checkBansAux now fuel i (RemoveIP l i)
      else checkBansAux now fuel (i + 1) l
    else l

/-- `TDM_CheckBans` (g_svcmds.c): remove expired timed bans, scanning
forward with swap-removal re-examining the swapped-in entry. -/
def TDM_CheckBans (l : List ipfilter_t) (now : Nat) : List ipfilter_t :=
  checkBansAux now (l.length + 1) 0 l

/-- The scan of `SV_FilterPacket`: return `filterban` at the first entry
containing the address, `!filterban` when none does. -/
def filterLoop (fb : Bool) (a : netadr_t) : List ipfilter_t → Bool
  | [] => !fb
  | e :: rest => if net_contains e.addr a then fb else filterLoop fb a rest

/-- `SV_FilterPacket` (g_svcmds.c): sweep, then scan.  `fb` models
`filterban->value` being nonzero (deny/ban mode); the second component
is the store after the sweep (the C globals after the call). -/
def SV_FilterPacket (fb : Bool) (l : List ipfilter_t) (a : netadr_t) (now : Nat) :
    Bool × List ipfilter_t :=
  let l1 := TDM_CheckBans l now
  (filterLoop fb a l1, l1)

/-- Outcomes of `SVCmd_AddIP_f`, one per return path of the C function. -/
inductive AddResult
  | usage
  | full
  | parseFail
  | ok
deriving DecidableEq

/-- `SVCmd_AddIP_f` (g_svcmds.c): usage check on empty text, sweep,
capacity check (`numipfilters == MAX_IPFILTERS`), minutes-to-seconds
conversion (`expiry *= 60`), `StringToFilter` (whose failure branch is
dead code since it returns `true` unconditionally), then append. -/
def SVCmd_AddIP_f (l : List ipfilter_t) (ip : String) (expiry : Nat) (now : Nat) :
    AddResult × List ipfilter_t :=
  if ip.data = [] then (AddResult.usage, l)
  else
    let l1 := TDM_CheckBans l now
    if l1.length = MAX_IPFILTERS then (AddResult.full, l1)
    else
      let r := StringToFilter ip (expiry * 60) now
      if r.1 = false then (AddResult.parseFail, l1)
      else (AddResult.ok, l1 ++ [r.2])

/-- Outcomes of `SVCmd_RemoveIP_f`, one per return path of the C function. -/
inductive RemoveResult
  | usage
  | removed
  | notFound
deriving DecidableEq

/-- The scan of `SVCmd_RemoveIP_f`: index (from `i` upward) of the first
entry matching the predicate. -/
def removeScanIdx (p : ipfilter_t → Bool) : List ipfilter_t → Nat → Option Nat
  | [], _ => none
  | e :: rest, i => if p e then some i else removeScanIdx p rest (i + 1)

/-- `SVCmd_RemoveIP_f` (g_svcmds.c): usage check, `StringToFilter`, sweep,
then scan for `f.addr.mask_bits == ipfilters[i].addr.mask_bits &&
!memcmp(&f.addr, &ipfilters[i].addr, sizeof(netadr_t))` (the `memcmp`
over the whole struct is modelled as structural equality) and remove the
first match via `RemoveIP`. -/
def SVCmd_RemoveIP_f (l : List ipfilter_t) (ip : String) (now : Nat) :
    RemoveResult × List ipfilter_t :=
  if ip.data = [] then (RemoveResult.usage, l)
  else
    let f := (StringToFilter ip 0 now).2
    let l1 := TDM_CheckBans l now
    match removeScanIdx
        (fun e => decide (f.addr.mask_bits = e.addr.mask_bits) && decide (f.addr = e.addr))
        l1 0 with
    | some i => (RemoveResult.removed, RemoveIP l1 i)
    | none => (RemoveResult.notFound, l1)

/-- `SVCmd_WriteIP_f` (g_svcmds.c), restricted to the `sv addip` lines
it emits: after the sweep, an entry is written iff `ipfilters[i].expire`
is zero (the `if (ipfilters[i].expire) continue;` test).  The first
component is the list of addresses written, the second the store after
the call. -/
def SVCmd_WriteIP_f (l : List ipfilter_t) (now : Nat) : List netadr_t × List ipfilter_t :=
  let l1 := TDM_CheckBans l now
  ((l1.filter (fun e => decide (e.expire = 0))).map (fun e => e.addr), l1)

/-! ### Helper lemmas -/

theorem RemoveIP_length (l : List ipfilter_t) (i : Nat) :
    (RemoveIP l i).length = l.length - 1 := by
  simp [RemoveIP]

theorem RemoveIP_take (l : List ipfilter_t) (i : Nat) (h : i < l.length) :
    (RemoveIP l i).take i = l.take i := by
  have h1 : (l.set i (l.getD (l.length - 1) ipfilterZero)).length = l.length :=
    List.length_set ..
  rw [RemoveIP, List.dropLast_eq_take, h1, List.take_take]
  have hmin : i ⊓ (l.length - 1) = i := by omega
  rw [hmin, List.set_take, List.set_eq_of_length_le]
  rw [List.length_take]
  omega

theorem RemoveIP_drop (l : List ipfilter_t) (i : Nat) (h : i < l.length) :
    (RemoveIP l i).drop i =
      ((l.getD (l.length - 1) ipfilterZero) :: l.drop (i + 1)).dropLast := by
  set z := l.getD (l.length - 1) ipfilterZero with hz
  have h1 : (l.set i z).length = l.length := List.length_set ..
  rw [RemoveIP, List.dropLast_eq_take, h1, List.drop_take, List.drop_set]
  rw [if_neg (by omega), Nat.sub_self]
  rw [List.drop_eq_getElem_cons h, List.set_cons_zero]
  have h2 : (z :: l.drop (i + 1)).dropLast = (z :: l.drop (i + 1)).take (l.length - 1 - i) := by
    rw [List.dropLast_eq_take]
    congr 1
    simp only [List.length_cons, List.length_drop]
    omega
  rw [h2]

open scoped List

theorem cons_set_perm {α : Type} (l : List α) (i : Nat) (x : α) (h : i < l.length) :
    (l.get ⟨i, h⟩ :: l.set i x).Perm (x :: l) := by
  induction l generalizing i with
  | nil => simp at h
  | cons a t ih =>
    cases i with
    | zero =>
      simpa using List.Perm.swap x a t
    | succ i =>
      have hi : i < t.length := by simpa using h
      have h0 : (a :: t).get ⟨i + 1, h⟩ = t.get ⟨i, hi⟩ := rfl
      rw [h0, List.set_cons_succ]
      calc t.get ⟨i, hi⟩ :: a :: t.set i x
          ~ a :: t.get ⟨i, hi⟩ :: t.set i x := List.Perm.swap _ _ _
        _ ~ a :: (x :: t) := (ih i hi).cons a
        _ ~ x :: a :: t := List.Perm.swap _ _ _

theorem RemoveIP_cons_perm (l : List ipfilter_t) (i : Nat) (h : i < l.length) :
    (l.get ⟨i, h⟩ :: RemoveIP l i).Perm l := by
  have h1 : (l.set i (l.getD (l.length - 1) ipfilterZero)).length = l.length :=
    List.length_set ..
  have hne2 : l.set i (l.getD (l.length - 1) ipfilterZero) ≠ [] := by
    intro he
    rw [he] at h1
    simp only [List.length_nil] at h1
    omega
  have hlast : (l.set i (l.getD (l.length - 1) ipfilterZero)).getLast hne2
      = l.getD (l.length - 1) ipfilterZero := by
    rw [List.getLast_eq_getElem, List.getElem_set]
    by_cases he : i = (l.set i (l.getD (l.length - 1) ipfilterZero)).length - 1
    · rw [if_pos he]
    · rw [if_neg he]
      simp only [h1]
      exact (List.getD_eq_getElem _ _ (by omega : l.length - 1 < l.length)).symm
  have hsplit : (l.set i (l.getD (l.length - 1) ipfilterZero)).dropLast
      ++ [l.getD (l.length - 1) ipfilterZero]
      = l.set i (l.getD (l.length - 1) ipfilterZero) := by
    have h2 := List.dropLast_append_getLast hne2
    rw [hlast] at h2
    exact h2
  have key : (l.getD (l.length - 1) ipfilterZero :: (l.get ⟨i, h⟩ :: RemoveIP l i)).Perm
      (l.getD (l.length - 1) ipfilterZero :: l) := by
    calc l.getD (l.length - 1) ipfilterZero :: l.get ⟨i, h⟩ :: RemoveIP l i
        ~ l.get ⟨i, h⟩ :: l.getD (l.length - 1) ipfilterZero :: RemoveIP l i :=
          List.Perm.swap _ _ _
      _ ~ l.get ⟨i, h⟩ ::
            ((l.set i (l.getD (l.length - 1) ipfilterZero)).dropLast
              ++ [l.getD (l.length - 1) ipfilterZero]) := by
          apply List.Perm.cons
          have h3 : l.getD (l.length - 1) ipfilterZero :: RemoveIP l i
              = [l.getD (l.length - 1) ipfilterZero]
                ++ (l.set i (l.getD (l.length - 1) ipfilterZero)).dropLast := by
            simp [RemoveIP]
          rw [h3]
          exact List.perm_append_comm
      _ = l.get ⟨i, h⟩ :: l.set i (l.getD (l.length - 1) ipfilterZero) := by rw [hsplit]
      _ ~ l.getD (l.length - 1) ipfilterZero :: l := cons_set_perm l i _ h
  exact key.cons_inv

theorem checkBansAux_perm (now : Nat) :
    ∀ fuel i l, l.length ≤ i + fuel →
      (checkBansAux now fuel i l).Perm
        (l.take i ++ (l.drop i).filter (fun e => !banExpired e now)) := by
  intro fuel
  induction fuel with
  | zero =>
    intro i l hle
    simp only [Nat.add_zero] at hle
    rw [checkBansAux, List.take_of_length_le hle, List.drop_eq_nil_of_le hle]
    simp
  | succ fuel ih =>
    intro i l hle
    rw [checkBansAux]
    by_cases hi : i < l.length
    · rw [dif_pos hi]
      by_cases hexp : banExpired (l.get ⟨i, hi⟩) now
      · rw [if_pos hexp]
        have hlen2 : (RemoveIP l i).length ≤ i + fuel := by
          rw [RemoveIP_length]
          omega
        refine (ih i (RemoveIP l i) hlen2).trans ?_
        rw [RemoveIP_take l i hi, RemoveIP_drop l i hi]
        apply List.Perm.append_left
        have hdrop : l.drop i = l.get ⟨i, hi⟩ :: l.drop (i + 1) := by
          rw [List.get_eq_getElem]
          exact List.drop_eq_getElem_cons hi
        rw [hdrop, List.filter_cons,
          if_neg (by simp only [List.get_eq_getElem] at hexp; simp [hexp])]
        by_cases hR : l.drop (i + 1) = []
        · rw [hR]
          simp
        · have hperm : ((l.getD (l.length - 1) ipfilterZero :: l.drop (i + 1)).dropLast).Perm
              (l.drop (i + 1)) := by
            rw [List.dropLast_cons_of_ne_nil hR]
            have hz : l.getD (l.length - 1) ipfilterZero = (l.drop (i + 1)).getLast hR := by
              have hlt : i + 1 < l.length := by
                rcases Nat.lt_or_ge (i + 1) l.length with h2 | h2
                · exact h2
                · exact absurd (List.drop_eq_nil_of_le h2) hR
              rw [List.getLast_eq_getElem, List.getElem_drop]
              have harith : i + 1 + ((l.drop (i + 1)).length - 1) = l.length - 1 := by
                rw [List.length_drop]
                omega
              simp only [harith]
              exact List.getD_eq_getElem _ _ (by omega : l.length - 1 < l.length)
            calc l.getD (l.length - 1) ipfilterZero :: (l.drop (i + 1)).dropLast
                ~ (l.drop (i + 1)).dropLast ++ [l.getD (l.length - 1) ipfilterZero] := by
                  have h4 : l.getD (l.length - 1) ipfilterZero :: (l.drop (i + 1)).dropLast
                      = [l.getD (l.length - 1) ipfilterZero] ++ (l.drop (i + 1)).dropLast :=
                    rfl
                  rw [h4]
                  exact List.perm_append_comm
              _ = l.drop (i + 1) := by
                  rw [hz]
                  exact List.dropLast_append_getLast hR
          exact hperm.filter _
      · rw [if_neg hexp]
        refine (ih (i + 1) l (by omega)).trans ?_
        have htake : l.take (i + 1) = l.take i ++ [l.get ⟨i, hi⟩] := by
          rw [List.get_eq_getElem, ← List.concat_eq_append, List.take_concat_get]
        have hdrop : l.drop i = l.get ⟨i, hi⟩ :: l.drop (i + 1) := by
          rw [List.get_eq_getElem]
          exact List.drop_eq_getElem_cons hi
        rw [htake, hdrop, List.filter_cons,
          if_pos (by simp only [List.get_eq_getElem, Bool.not_eq_true] at hexp; simp [hexp]),
          List.append_assoc]
        exact List.Perm.refl _
    · rw [dif_neg hi]
      have hle2 : l.length ≤ i := by omega
      rw [List.take_of_length_le hle2, List.drop_eq_nil_of_le hle2]
      simp

/-- `TDM_CheckBans` keeps, up to order, exactly the entries the loop
test does not remove. -/
theorem TDM_CheckBans_perm (l : List ipfilter_t) (now : Nat) :
    (TDM_CheckBans l now).Perm (l.filter (fun e => !banExpired e now)) := by
  have h := checkBansAux_perm now (l.length + 1) 0 l (by omega)
  simpa using h

theorem TDM_CheckBans_length_of_none_expired (l : List ipfilter_t) (now : Nat)
    (h : ∀ e ∈ l, banExpired e now = false) :
    (TDM_CheckBans l now).length = l.length := by
  have hp := TDM_CheckBans_perm l now
  rw [hp.length_eq]
  have hself : l.filter (fun e => !banExpired e now) = l := by
    rw [List.filter_eq_self]
    intro a ha
    rw [h a ha]
    rfl
  rw [hself]

theorem filterLoop_eq_any (fb : Bool) (a : netadr_t) (l : List ipfilter_t) :
    filterLoop fb a l = if l.any (fun e => net_contains e.addr a) then fb else !fb := by
  induction l with
  | nil => simp [filterLoop]
  | cons e rest ih =>
    rw [filterLoop]
    by_cases hc : net_contains e.addr a
    · simp [hc]
    · simp only [List.any_cons, hc, Bool.false_or]
      rw [if_neg (by simp [hc]), ih]

theorem removeScanIdx_eq_none (p : ipfilter_t → Bool) :
    ∀ (l : List ipfilter_t) (i : Nat), (∀ e ∈ l, p e = false) →
      removeScanIdx p l i = none := by
  intro l
  induction l with
  | nil => intro i _; rfl
  | cons e rest ih =>
    intro i hall
    rw [removeScanIdx, if_neg (by simp [hall e (by simp)])]
    exact ih (i + 1) (fun x hx => hall x (by simp [hx]))

theorem removeScanIdx_eq_first (p : ipfilter_t → Bool) :
    ∀ (l : List ipfilter_t) (j : Nat) (hj : j < l.length) (i : Nat),
      p (l.get ⟨j, hj⟩) = true →
      (∀ k (hk : k < j), p (l.get ⟨k, Nat.lt_trans hk hj⟩) = false) →
      removeScanIdx p l i = some (i + j) := by
  intro l
  induction l with
  | nil => intro j hj; simp at hj
  | cons e rest ih =>
    intro j hj i hpj hfirst
    cases j with
    | zero =>
      have hp0 : p e = true := hpj
      rw [removeScanIdx, if_pos hp0, Nat.add_zero]
    | succ j =>
      have hp0 : p e = false := hfirst 0 (Nat.succ_pos j)
      rw [removeScanIdx, if_neg (by simp [hp0])]
      have hj2 : j < rest.length := by simpa using hj
      have h5 := ih j hj2 (i + 1) hpj
        (fun k hk => hfirst (k + 1) (Nat.succ_lt_succ hk))
      rw [h5]
      congr 1
      omega

/-! ### Concrete values used by witnesses and counterexamples -/

def ipTextA : String := "192.0.2.5"

def ipTextBad : String := "not-an-ip"

def addrA : netadr_t :=
  { family := AddrFamily.v4, ip := [192, 0, 2, 5] ++ List.replicate 12 0, mask_bits := 32 }

def addrB : netadr_t :=
  { family := AddrFamily.v4, ip := [5, 6, 7, 8] ++ List.replicate 12 0, mask_bits := 32 }

def addrC : netadr_t :=
  { family := AddrFamily.v4, ip := [9, 9, 9, 9] ++ List.replicate 12 0, mask_bits := 32 }

/-- A permanent entry (the sentinel `-1` as stored in the unsigned field). -/
def permEntryA : ipfilter_t := { addr := addrA, expire := UINT_MAX }

/-- A timed entry expiring at absolute time 50. -/
def timedEntryB : ipfilter_t := { addr := addrB, expire := 50 }

/-- A timed entry expiring at absolute time 200. -/
def timedEntryC : ipfilter_t := { addr := addrC, expire := 200 }

/-! ### The claims -/

/-- Claim C1 (refuted — code bug): the claim says `SVCmd_WriteIP_f` writes
one `sv addip` directive per permanent entry and none for finite-expiry
entries.  In the code, a permanent entry carries `expire = -1`
(`UINT_MAX` in the unsigned field, set by `StringToFilter`), but the
write loop skips every entry with *nonzero* `expire`
(`if (ipfilters[i].expire) continue;`).  Hence the store holding exactly
the permanent entry produced by `sv addip 192.0.2.5` with duration 0
yields an empty list of `addip` lines — the permanent entry is not
saved, contradicting the claim and the source comment "only write
permanent bans to disk". -/
theorem C1_writeip_skips_permanent :
    (StringToFilter ipTextA 0 77).2.expire = UINT_MAX ∧
    (StringToFilter ipTextA 0 77).2.expire ≠ 0 ∧
    (SVCmd_WriteIP_f [(StringToFilter ipTextA 0 77).2] 77).2
      = [(StringToFilter ipTextA 0 77).2] ∧
    (SVCmd_WriteIP_f [(StringToFilter ipTextA 0 77).2] 77).1 = [] := by
  refine ⟨rfl, by decide, by decide, by decide⟩

/-- Claim C2: `SVCmd_AddIP_f` with duration 0 appends an entry carrying
the forever sentinel (`-1` stored as `UINT_MAX`), which is never
already-expired and survives every expiry sweep at every unsigned
current time. -/
theorem C2_add_zero_is_forever (l : List ipfilter_t) (ip : String) (now : Nat)
    (h0 : ip.data ≠ []) (h1 : (TDM_CheckBans l now).length ≠ MAX_IPFILTERS) :
    SVCmd_AddIP_f l ip 0 now
      = (AddResult.ok, TDM_CheckBans l now ++ [(StringToFilter ip 0 now).2]) ∧
    (StringToFilter ip 0 now).2.expire = UINT_MAX ∧
    (∀ t, t < 4294967296 → banExpired (StringToFilter ip 0 now).2 t = false) ∧
    (∀ t (l2 : List ipfilter_t), t < 4294967296 →
      (StringToFilter ip 0 now).2 ∈ l2 →
      (StringToFilter ip 0 now).2 ∈ TDM_CheckBans l2 t) := by
  have hexp : (StringToFilter ip 0 now).2.expire = UINT_MAX := by
    simp [StringToFilter]
  have hban : ∀ t, t < 4294967296 → banExpired (StringToFilter ip 0 now).2 t = false := by
    intro t ht
    have hlt : ¬((StringToFilter ip 0 now).2.expire < t) := by
      rw [hexp, UINT_MAX]
      omega
    simp [banExpired, hlt]
  refine ⟨?_, hexp, hban, ?_⟩
  · rw [SVCmd_AddIP_f, if_neg h0, if_neg h1]
    have hmul : (0 : Nat) * 60 = 0 := rfl
    rw [hmul]
    rfl
  · intro t l2 ht hmem
    have hperm := TDM_CheckBans_perm l2 t
    rw [hperm.mem_iff, List.mem_filter]
    exact ⟨hmem, by rw [hban t ht]; rfl⟩

/-- Claim C3 (refuted — code bug): the claim says `Add` fails with a
`BadAddress` error on unparseable text and inserts nothing.  In the
code, `StringToFilter` returns `true` unconditionally (its
error-checking caller branch is dead code), so `SVCmd_AddIP_f` on the
unparseable text "not-an-ip" reports success and appends an entry (whose
address is the zeroed struct): the store grows from 0 to 1 entries. -/
theorem C3_add_inserts_unparseable :
    net_parseIPAddressMask ipTextBad = none ∧
    (StringToFilter ipTextBad 300 1000).1 = true ∧
    SVCmd_AddIP_f [] ipTextBad 5 1000
      = (AddResult.ok, [{ addr := netadrZero, expire := 1300 }]) := by
  refine ⟨by decide, rfl, by decide⟩

/-- Witness for C2 at a concrete input. -/
theorem C2_add_zero_is_forever_witness :
    ipTextA.data ≠ [] ∧ (TDM_CheckBans [] 7).length ≠ MAX_IPFILTERS ∧
    (SVCmd_AddIP_f [] ipTextA 0 7
        = (AddResult.ok, TDM_CheckBans [] 7 ++ [(StringToFilter ipTextA 0 7).2]) ∧
      (StringToFilter ipTextA 0 7).2.expire = UINT_MAX ∧
      (∀ t, t < 4294967296 → banExpired (StringToFilter ipTextA 0 7).2 t = false) ∧
      (∀ t (l2 : List ipfilter_t), t < 4294967296 →
        (StringToFilter ipTextA 0 7).2 ∈ l2 →
        (StringToFilter ipTextA 0 7).2 ∈ TDM_CheckBans l2 t)) :=
  ⟨by decide, by decide, C2_add_zero_is_forever [] ipTextA 7 (by decide) (by decide)⟩

/-- Claim C4: one sweep removes, up to order, exactly the entries whose
expiry is set (nonzero), non-permanent (not the `UINT_MAX` sentinel) and
strictly before `now`; no other entry is removed and no entry is skipped
(the result is the exact filter of the input, so the entry swapped into
a vacated slot is also examined). -/
theorem C4_sweep_removes_exactly_expired (l : List ipfilter_t) (now : Nat)
    (h : now < 4294967296) :
    (TDM_CheckBans l now).Perm
      (l.filter (fun e =>
        !(decide (e.expire ≠ 0) && decide (e.expire ≠ UINT_MAX) && decide (e.expire < now)))) := by
  refine (TDM_CheckBans_perm l now).trans ?_
  have hcong : l.filter (fun e => !banExpired e now)
      = l.filter (fun e =>
        !(decide (e.expire ≠ 0) && decide (e.expire ≠ UINT_MAX) && decide (e.expire < now))) := by
    apply List.filter_congr
    intro e _
    simp only [banExpired, UINT_MAX]
    by_cases h0 : e.expire = 0
    · simp [h0]
    · by_cases h1 : e.expire < now
      · have h2 : e.expire ≠ 4294967295 := by omega
        simp [h0, h1, h2]
      · simp [h0, h1]
  rw [hcong]

/-- Witness for C4 at a concrete store and time. -/
theorem C4_sweep_removes_exactly_expired_witness :
    (100 : Nat) < 4294967296 ∧
    (TDM_CheckBans [permEntryA, timedEntryB, timedEntryC] 100).Perm
      ([permEntryA, timedEntryB, timedEntryC].filter (fun e =>
        !(decide (e.expire ≠ 0) && decide (e.expire ≠ UINT_MAX) && decide (e.expire < 100)))) :=
  ⟨by decide, C4_sweep_removes_exactly_expired [permEntryA, timedEntryB, timedEntryC] 100 (by decide)⟩

/-- Claim C5 as amended: `SV_FilterPacket` first sweeps, and then returns
the *reject* decision — `true` iff in deny-mode (`filterban` nonzero)
some remaining entry contains the address, or in allow-mode no remaining
entry contains it.  The permit decision of the claim is the negation of
the returned value. -/
theorem C5_check_returns_reject_decision (fb : Bool) (l : List ipfilter_t)
    (a : netadr_t) (now : Nat) :
    (SV_FilterPacket fb l a now).2 = TDM_CheckBans l now ∧
    ((SV_FilterPacket fb l a now).1 = true ↔
      ((fb = true ∧ ∃ e ∈ TDM_CheckBans l now, net_contains e.addr a = true) ∨
       (fb = false ∧ ∀ e ∈ TDM_CheckBans l now, net_contains e.addr a = false))) := by
  refine ⟨rfl, ?_⟩
  have h1 : (SV_FilterPacket fb l a now).1
      = if (TDM_CheckBans l now).any (fun e => net_contains e.addr a) then fb else !fb :=
    filterLoop_eq_any fb a (TDM_CheckBans l now)
  rw [h1]
  by_cases hany : (TDM_CheckBans l now).any (fun e => net_contains e.addr a) = true
  · have hex : ∃ e ∈ TDM_CheckBans l now, net_contains e.addr a = true :=
      List.any_eq_true.mp hany
    rw [if_pos hany]
    cases fb with
    | true =>
      constructor
      · intro _; exact Or.inl ⟨rfl, hex⟩
      · intro _; rfl
    | false =>
      constructor
      · intro hc; cases hc
      · rintro (⟨hc, _⟩ | ⟨_, hall⟩)
        · exact hc
        · obtain ⟨x, hx, hpx⟩ := hex
          rw [hall x hx] at hpx
          cases hpx
  · have hall : ∀ e ∈ TDM_CheckBans l now, net_contains e.addr a = false := by
      intro e he
      cases hc : net_contains e.addr a
      · rfl
      · exact absurd (List.any_eq_true.mpr ⟨e, he, hc⟩) hany
    rw [if_neg hany]
    cases fb with
    | false =>
      constructor
      · intro _; exact Or.inr ⟨rfl, hall⟩
      · intro _; rfl
    | true =>
      constructor
      · intro hc; cases hc
      · rintro (⟨_, hex⟩ | ⟨hc, _⟩)
        · obtain ⟨x, hx, hpx⟩ := hex
          rw [hall x hx] at hpx
          cases hpx
        · cases hc

/-- Counterexample to claim C5 as stated: in deny-mode (`filterban`
nonzero, `fb = true`), with an empty store (so no remaining entry
contains the address), the claim predicts the permit value `true`;
`SV_FilterPacket` returns `false` (it returns the reject decision, not
the permit decision). -/
theorem C5_claim_counterexample :
    ¬ (((SV_FilterPacket true [] addrA 0).1 = true) ↔
       ((true = true ∧ ∀ e ∈ TDM_CheckBans ([] : List ipfilter_t) 0,
           net_contains e.addr addrA = false) ∨
        (true = false ∧ ∃ e ∈ TDM_CheckBans ([] : List ipfilter_t) 0,
           net_contains e.addr addrA = true))) := by
  decide

/-- Claim C6: when the store after the initial sweep is at capacity,
`SVCmd_AddIP_f` reports the full error and leaves the swept store
unchanged — no silent truncation. -/
theorem C6_add_full_unchanged (l : List ipfilter_t) (ip : String) (expiry now : Nat)
    (h0 : ip.data ≠ []) (h1 : (TDM_CheckBans l now).length = MAX_IPFILTERS) :
    SVCmd_AddIP_f l ip expiry now = (AddResult.full, TDM_CheckBans l now) := by
  rw [SVCmd_AddIP_f, if_neg h0]
  simp [h1]

/-- Witness for C6: a store of 1024 permanent entries is at capacity and
the add is refused. -/
theorem C6_add_full_unchanged_witness :
    ipTextA.data ≠ [] ∧
    (TDM_CheckBans (List.replicate 1024 permEntryA) 0).length = MAX_IPFILTERS ∧
    SVCmd_AddIP_f (List.replicate 1024 permEntryA) ipTextA 5 0
      = (AddResult.full, TDM_CheckBans (List.replicate 1024 permEntryA) 0) := by
  have hcap : (TDM_CheckBans (List.replicate 1024 permEntryA) 0).length = MAX_IPFILTERS := by
    rw [TDM_CheckBans_length_of_none_expired]
    · rw [List.length_replicate]; rfl
    · intro e he
      rw [List.eq_of_mem_replicate he]
      decide
  exact ⟨by decide, hcap, C6_add_full_unchanged _ _ 5 0 (by decide) hcap⟩

/-- Claim C7: for parseable removal text, `SVCmd_RemoveIP_f` removes the
first entry (of the swept store) whose mask has both the same prefix
length and the same address struct as the parsed mask — exact equality,
not containment — and reports not-found, leaving the swept store
unchanged, when no entry matches exactly. -/
theorem C7_remove_exact_first_match (l : List ipfilter_t) (ip : String) (now : Nat)
    (m : netadr_t) (h0 : ip.data ≠ []) (hp : net_parseIPAddressMask ip = some m) :
    ((∀ e ∈ TDM_CheckBans l now, ¬(m.mask_bits = e.addr.mask_bits ∧ m = e.addr)) →
      SVCmd_RemoveIP_f l ip now = (RemoveResult.notFound, TDM_CheckBans l now)) ∧
    (∀ j (hj : j < (TDM_CheckBans l now).length),
      (m.mask_bits = ((TDM_CheckBans l now).get ⟨j, hj⟩).addr.mask_bits ∧
        m = ((TDM_CheckBans l now).get ⟨j, hj⟩).addr) →
      (∀ k (hk : k < j),
        ¬(m.mask_bits = ((TDM_CheckBans l now).get ⟨k, Nat.lt_trans hk hj⟩).addr.mask_bits ∧
          m = ((TDM_CheckBans l now).get ⟨k, Nat.lt_trans hk hj⟩).addr)) →
      SVCmd_RemoveIP_f l ip now
        = (RemoveResult.removed, RemoveIP (TDM_CheckBans l now) j)) := by
  have haddr : (StringToFilter ip 0 now).2.addr = m := by
    simp [StringToFilter, hp]
  have hdec_false : ∀ (a b : Prop) (ha : Decidable a) (hb : Decidable b), ¬(a ∧ b) →
      (decide a && decide b) = false := by
    intro a b ha hb hnab
    by_cases hA : a
    · have hB : ¬b := fun hb2 => hnab ⟨hA, hb2⟩
      simp [hB]
    · simp [hA]
  constructor
  · intro hnomatch
    have hnone : removeScanIdx
        (fun e => decide ((StringToFilter ip 0 now).2.addr.mask_bits = e.addr.mask_bits)
          && decide ((StringToFilter ip 0 now).2.addr = e.addr))
        (TDM_CheckBans l now) 0 = none := by
      apply removeScanIdx_eq_none
      intro e he
      rw [haddr]
      exact hdec_false _ _ _ _ (hnomatch e he)
    rw [SVCmd_RemoveIP_f, if_neg h0]
    simp only [hnone]
  · intro j hj hmatch hfirst
    have hsome : removeScanIdx
        (fun e => decide ((StringToFilter ip 0 now).2.addr.mask_bits = e.addr.mask_bits)
          && decide ((StringToFilter ip 0 now).2.addr = e.addr))
        (TDM_CheckBans l now) 0 = some j := by
      have h5 := removeScanIdx_eq_first
        (fun e => decide ((StringToFilter ip 0 now).2.addr.mask_bits = e.addr.mask_bits)
          && decide ((StringToFilter ip 0 now).2.addr = e.addr))
        (TDM_CheckBans l now) j hj 0
        (by rw [haddr]; simp [hmatch.1, hmatch.2])
        (by
          intro k hk
          rw [haddr]
          exact hdec_false _ _ _ _ (hfirst k hk))
      rw [h5, Nat.zero_add]
    rw [SVCmd_RemoveIP_f, if_neg h0]
    simp only [hsome]

/-- Witness for C7: removing `192.0.2.5` (parsed to a /32 host mask)
from a store holding that exact mask first removes that first match. -/
theorem C7_remove_exact_first_match_witness :
    ipTextA.data ≠ [] ∧ net_parseIPAddressMask ipTextA = some addrA ∧
    (((∀ e ∈ TDM_CheckBans [permEntryA, timedEntryC] 0,
        ¬(addrA.mask_bits = e.addr.mask_bits ∧ addrA = e.addr)) →
      SVCmd_RemoveIP_f [permEntryA, timedEntryC] ipTextA 0
        = (RemoveResult.notFound, TDM_CheckBans [permEntryA, timedEntryC] 0)) ∧
    (∀ j (hj : j < (TDM_CheckBans [permEntryA, timedEntryC] 0).length),
      (addrA.mask_bits
          = ((TDM_CheckBans [permEntryA, timedEntryC] 0).get ⟨j, hj⟩).addr.mask_bits ∧
        addrA = ((TDM_CheckBans [permEntryA, timedEntryC] 0).get ⟨j, hj⟩).addr) →
      (∀ k (hk : k < j),
        ¬(addrA.mask_bits = ((TDM_CheckBans [permEntryA, timedEntryC] 0).get
            ⟨k, Nat.lt_trans hk hj⟩).addr.mask_bits ∧
          addrA = ((TDM_CheckBans [permEntryA, timedEntryC] 0).get
            ⟨k, Nat.lt_trans hk hj⟩).addr)) →
      SVCmd_RemoveIP_f [permEntryA, timedEntryC] ipTextA 0
        = (RemoveResult.removed, RemoveIP (TDM_CheckBans [permEntryA, timedEntryC] 0) j))) :=
  ⟨by decide, by decide,
    C7_remove_exact_first_match [permEntryA, timedEntryC] ipTextA 0 addrA
      (by decide) (by decide)⟩

/-- Claim C8: `RemoveIP` at a valid index removes exactly the entry at
that index, by moving the last entry into the vacated slot and shrinking
the count by one; the multiset of the remaining entries is unchanged. -/
theorem C8_removeAt_swap (l : List ipfilter_t) (i : Nat) (h : i < l.length) :
    (RemoveIP l i).length = l.length - 1 ∧
    RemoveIP l i = (l.set i (l.getD (l.length - 1) ipfilterZero)).dropLast ∧
    ((l.getD i ipfilterZero :: RemoveIP l i : List ipfilter_t) : Multiset ipfilter_t)
      = (l : Multiset ipfilter_t) := by
  refine ⟨RemoveIP_length l i, rfl, ?_⟩
  have hg : l.getD i ipfilterZero = l.get ⟨i, h⟩ := by
    rw [List.get_eq_getElem]
    exact List.getD_eq_getElem _ _ h
  rw [hg]
  exact Multiset.coe_eq_coe.mpr (RemoveIP_cons_perm l i h)

/-- Witness for C8 at a concrete store and index. -/
theorem C8_removeAt_swap_witness :
    1 < [permEntryA, timedEntryB, timedEntryC].length ∧
    ((RemoveIP [permEntryA, timedEntryB, timedEntryC] 1).length
        = [permEntryA, timedEntryB, timedEntryC].length - 1 ∧
      RemoveIP [permEntryA, timedEntryB, timedEntryC] 1
        = ([permEntryA, timedEntryB, timedEntryC].set 1
            ([permEntryA, timedEntryB, timedEntryC].getD
              ([permEntryA, timedEntryB, timedEntryC].length - 1) ipfilterZero)).dropLast ∧
      (([permEntryA, timedEntryB, timedEntryC].getD 1 ipfilterZero
          :: RemoveIP [permEntryA, timedEntryB, timedEntryC] 1 : List ipfilter_t)
          : Multiset ipfilter_t)
        = ([permEntryA, timedEntryB, timedEntryC] : Multiset ipfilter_t)) :=
  ⟨by decide, C8_removeAt_swap [permEntryA, timedEntryB, timedEntryC] 1 (by decide)⟩

/-- Claim C9: the sweep comparison is strict — a non-permanent entry
whose expiry equals the current time is not removed, stays in the store
through the sweep, and still decides the check at that exact instant. -/
theorem C9_expiry_boundary_kept (e : ipfilter_t) (now : Nat)
    (h1 : e.expire = now) (h2 : e.expire ≠ UINT_MAX) :
    banExpired e now = false ∧
    (∀ l : List ipfilter_t, e ∈ l → e ∈ TDM_CheckBans l now) ∧
    (∀ (fb : Bool) (l : List ipfilter_t) (a : netadr_t),
      e ∈ l → net_contains e.addr a = true → (SV_FilterPacket fb l a now).1 = fb) := by
  have hb : banExpired e now = false := by
    have hlt : ¬(e.expire < now) := by omega
    simp [banExpired, hlt]
  have hmem : ∀ l : List ipfilter_t, e ∈ l → e ∈ TDM_CheckBans l now := by
    intro l hl
    rw [(TDM_CheckBans_perm l now).mem_iff, List.mem_filter]
    exact ⟨hl, by rw [hb]; rfl⟩
  refine ⟨hb, hmem, ?_⟩
  intro fb l a hl hc
  have h3 := filterLoop_eq_any fb a (TDM_CheckBans l now)
  have hany : (TDM_CheckBans l now).any (fun x => net_contains x.addr a) = true :=
    List.any_eq_true.mpr ⟨e, hmem l hl, hc⟩
  have h4 : (SV_FilterPacket fb l a now).1 = filterLoop fb a (TDM_CheckBans l now) := rfl
  rw [h4, h3, if_pos hany]

/-- An entry whose expiry is exactly the probe time 500. -/
def boundaryEntry : ipfilter_t := { addr := addrB, expire := 500 }

/-- Witness for C9 at a concrete entry and time. -/
theorem C9_expiry_boundary_kept_witness :
    boundaryEntry.expire = 500 ∧ boundaryEntry.expire ≠ UINT_MAX ∧
    (banExpired boundaryEntry 500 = false ∧
      (∀ l : List ipfilter_t, boundaryEntry ∈ l → boundaryEntry ∈ TDM_CheckBans l 500) ∧
      (∀ (fb : Bool) (l : List ipfilter_t) (a : netadr_t),
        boundaryEntry ∈ l → net_contains boundaryEntry.addr a = true →
        (SV_FilterPacket fb l a 500).1 = fb)) :=
  ⟨by decide, by decide, C9_expiry_boundary_kept boundaryEntry 500 (by decide) (by decide)⟩

/-- Claim C10: the check verdict is invariant under permutations of the
stored entries — it equals the mode flag iff some swept entry contains
the address, independently of which entry is met first. -/
theorem C10_check_order_invariant (fb : Bool) (a : netadr_t) (now : Nat)
    (l l2 : List ipfilter_t) (hp : l.Perm l2) :
    (SV_FilterPacket fb l a now).1 = (SV_FilterPacket fb l2 a now).1 ∧
    (SV_FilterPacket fb l a now).1
      = if (TDM_CheckBans l now).any (fun e => net_contains e.addr a) then fb else !fb := by
  have hperm : (TDM_CheckBans l now).Perm (TDM_CheckBans l2 now) :=
    (TDM_CheckBans_perm l now).trans ((hp.filter _).trans (TDM_CheckBans_perm l2 now).symm)
  have hany : (TDM_CheckBans l now).any (fun e => net_contains e.addr a)
      = (TDM_CheckBans l2 now).any (fun e => net_contains e.addr a) := by
    cases h2 : (TDM_CheckBans l2 now).any (fun e => net_contains e.addr a)
    · cases h1 : (TDM_CheckBans l now).any (fun e => net_contains e.addr a)
      · rfl
      · obtain ⟨x, hx, hpx⟩ := List.any_eq_true.mp h1
        have h6 : (TDM_CheckBans l2 now).any (fun e => net_contains e.addr a) = true :=
          List.any_eq_true.mpr ⟨x, hperm.mem_iff.mp hx, hpx⟩
        rw [h2] at h6
        cases h6
    · obtain ⟨x, hx, hpx⟩ := List.any_eq_true.mp h2
      exact List.any_eq_true.mpr ⟨x, hperm.mem_iff.mpr hx, hpx⟩
  have e1 := filterLoop_eq_any fb a (TDM_CheckBans l now)
  have e2 := filterLoop_eq_any fb a (TDM_CheckBans l2 now)
  have h7 : (SV_FilterPacket fb l a now).1 = filterLoop fb a (TDM_CheckBans l now) := rfl
  have h8 : (SV_FilterPacket fb l2 a now).1 = filterLoop fb a (TDM_CheckBans l2 now) := rfl
  constructor
  · rw [h7, h8, e1, e2, hany]
  · rw [h7, e1]

/-- Witness for C10 at a concrete permutation. -/
theorem C10_check_order_invariant_witness :
    ([permEntryA, timedEntryC].Perm [timedEntryC, permEntryA]) ∧
    ((SV_FilterPacket true [permEntryA, timedEntryC] addrA 0).1
        = (SV_FilterPacket true [timedEntryC, permEntryA] addrA 0).1 ∧
      (SV_FilterPacket true [permEntryA, timedEntryC] addrA 0).1
        = if (TDM_CheckBans [permEntryA, timedEntryC] 0).any
            (fun e => net_contains e.addr addrA) then true else !true) :=
  ⟨by decide, C10_check_order_invariant true addrA 0 _ _ (by decide)⟩
